import Mathlib

/-!
Verification development for the swiper repository: a cooperative
resource-ownership arbitration primitive for single-threaded async tasks.

The embedding models `src/core/swiper_stealing/src/lib.rs` (ownership
tokens, revocable cells, the `PreemptibleFuture` poll protocol and the
`PreemptionError` type) and `src/core/swiper_derive/src/lib.rs` (the
`preemptible` attribute macro's signature rewriting: `single_fn_to_ir`
and `generate_wrapped_function`).

Modelling conventions, taken from the source:
- A Rust `ThiefInfo` holds only a static display name.  Ownership is
  recorded as `NonNull<ThiefInfo>` and compared with `ptr::eq`, while
  `current_owner()` dereferences the pointer to read the value.  We model
  such a pointer as a `ThiefRef`: the address paired with the pointed-to
  `ThiefInfo` value.
- `RevocableCell<T>` holds the protected data, the recorded owner and a
  name.  The poll protocol only ever sees a cell through the type-erased
  `&dyn Requirement` interface (owner and name, never the data); that
  erased view is `ReqState`.  The protected data that the *inner* future
  mutates through its own raw pointer is threaded separately as a state
  `D` given to the abstract inner poll function, exactly as in the
  `future_mutexing` test where `CountForever` holds `&mut i32` into the
  cell's data.
- Interior mutation becomes explicit state passing: each operation
  returns the updated value.
-/

namespace Swiper

/-- Metadata about a `PreemptibleFuture`: its display name
(`ThiefInfo` in `swiper_stealing/src/lib.rs`). -/
structure ThiefInfo where
  name : String
deriving DecidableEq, Repr

/-- A pointer to a `ThiefInfo` as stored in a requirement's owner field
(`NonNull<ThiefInfo>`): the address (used by `ptr::eq`) paired with the
pointed-to value (read by dereferencing in `current_owner`). -/
structure ThiefRef where
  addr : Nat
  tinfo : ThiefInfo
deriving DecidableEq, Repr

/-- Metadata about a `RevocableCell` (`RequirementInfo`). -/
structure RequirementInfo where
  name : String
deriving DecidableEq, Repr

/-- `RevocableCell<T>`: the protected data (`UnsafeCell<T>`), the recorded
owner (`Cell<Option<NonNull<ThiefInfo>>>`) and the static name. -/
structure RevocableCell (T : Type) where
  data : T
  owner : Option ThiefRef
  name : String
deriving DecidableEq, Repr

namespace RevocableCell

/-- `RevocableCell::new`: wraps `data`, defaulting to no owner. -/
def new {T : Type} (data : T) (name : String) : RevocableCell T :=
  { data := data, owner := none, name := name }

/-- `Requirement::steal_ownership` for `RevocableCell`:
`self.owner.set(Some(thief.into()))`. -/
def steal_ownership {T : Type} (c : RevocableCell T) (thief : ThiefRef) :
    RevocableCell T :=
  { c with owner := some thief }

/-- `Requirement::release_ownership` for `RevocableCell`:
`self.owner.set(None)`. -/
def release_ownership {T : Type} (c : RevocableCell T) : RevocableCell T :=
  { c with owner := none }

/-- `Requirement::current_owner` for `RevocableCell`:
`self.owner.get().map(|ptr| ptr.as_ref())`, a pure read. -/
def current_owner {T : Type} (c : RevocableCell T) : Option ThiefRef :=
  c.owner

/-- `Requirement::info` for `RevocableCell`:
`RequirementInfo { name: self.name }`. -/
def info {T : Type} (c : RevocableCell T) : RequirementInfo :=
  { name := c.name }

end RevocableCell

/-- The type-erased view of a requirement that the poll protocol works
with (`&dyn Requirement`): the recorded owner and the name.  The
protected data is invisible through this interface. -/
structure ReqState where
  owner : Option ThiefRef
  name : String
deriving DecidableEq, Repr

/-- `steal_ownership` on the erased view. -/
def ReqState.steal_ownership (r : ReqState) (thief : ThiefRef) : ReqState :=
  { r with owner := some thief }

/-- `release_ownership` on the erased view. -/
def ReqState.release_ownership (r : ReqState) : ReqState :=
  { r with owner := none }

/-- `info` on the erased view. -/
def ReqState.info (r : ReqState) : RequirementInfo :=
  { name := r.name }

/-- Forgetting the protected data of a cell gives its erased view. -/
def RevocableCell.erase {T : Type} (c : RevocableCell T) : ReqState :=
  { owner := c.owner, name := c.name }

/-- `PreemptionError`: who lost (`outgoing`), to whom if known
(`incoming`), over which requirement.  In Rust, `PartialEq` is derived,
so equality is field-wise, which structure equality in Lean matches. -/
structure PreemptionError where
  incoming : Option ThiefInfo
  outgoing : ThiefInfo
  requirement : RequirementInfo
deriving DecidableEq, Repr

/-- The `Display` rendering of `ThiefInfo`:
the format string is "Thief \x7b name: \x7b\x7d \x7d " applied to the name. -/
def ThiefInfo.display (t : ThiefInfo) : String :=
  "Thief \x7b name: " ++ t.name ++ " \x7d "

/-- The `Display` rendering of `RequirementInfo`. -/
def RequirementInfo.display (r : RequirementInfo) : String :=
  "Requirement \x7b name: " ++ r.name ++ " \x7d "

/-- The `Display` rendering of `PreemptionError`: one message for a known
incoming task, another when no owner was recorded. -/
def PreemptionError.display (e : PreemptionError) : String :=
  match e.incoming with
  | some incoming =>
      "outgoing task " ++ e.outgoing.display ++
        " was preempted by incoming task " ++ incoming.display ++
        " stealing its requirement " ++ e.requirement.display
  | none =>
      "outgoing task " ++ e.outgoing.display ++
        " was preempted by an unknown incoming task stealing its requirement "
        ++ e.requirement.display

/-- The `Poll` type of the async runtime. -/
inductive Poll (α : Type) where
  | pending
  | ready (value : α)
deriving DecidableEq, Repr

/-- The mutable fields of a `PreemptibleFuture` task: the inner future's
state, its own `ThiefInfo` (together with the pinned address that
`&mut instance.info` has, as a `ThiefRef`, named `info` as in the
source), and the `first_run` flag. -/
structure PreemptibleFuture (InnerS : Type) where
  innerState : InnerS
  info : ThiefRef
  first_run : Bool
deriving DecidableEq, Repr

/-- The non-first-run validation loop of `PreemptibleFuture::poll`:
scan the requirements in order; skip each one whose recorded owner is this
task's own token compared by pointer address (`ptr::eq(owner, info)`);
at the first failing one, build the `PreemptionError` the source builds
there (`incoming` is the dereferenced recorded owner, or `None` when no
owner is recorded) and stop.  Returns `none` when every requirement is
owned by this task. -/
def checkRequirements (self : ThiefRef) : List ReqState → Option PreemptionError
  | [] => none
  | r :: rest =>
    match r.owner with
    | some owner =>
        if owner.addr = self.addr then checkRequirements self rest
        else some { incoming := some owner.tinfo, outgoing := self.tinfo,
                    requirement := { name := r.name } }
    | none =>
        some { incoming := none, outgoing := self.tinfo,
               requirement := { name := r.name } }

/-- The tail of `PreemptibleFuture::poll` after ownership is verified:
`let res = inner.poll(cx).map(Ok); if res.is_ready() { release all } res`.
`innerPoll` abstracts polling the inner future: from the inner state and
the shared protected data it produces a new inner state, new data and a
poll result. -/
def pollVerified {InnerS D Output : Type}
    (innerPoll : InnerS → D → InnerS × D × Poll Output)
    (fut : PreemptibleFuture InnerS) (reqs : List ReqState) (d : D) :
    PreemptibleFuture InnerS × List ReqState × D ×
      Poll (Except PreemptionError Output) :=
  match innerPoll fut.innerState d with
  | (s, d, Poll.pending) =>
      ({ fut with innerState := s }, reqs, d, Poll.pending)
  | (s, d, Poll.ready v) =>
      ({ fut with innerState := s }, reqs.map ReqState.release_ownership, d,
        Poll.ready (Except.ok v))

/-- `PreemptibleFuture::poll` (swiper_stealing/src/lib.rs): on the first
run, steal ownership of every requirement with this task's own token and
clear `first_run`; otherwise run the validation loop and, at the first
requirement not owned by this token, return `Ready(Err(..))` at once
without touching any state.  With ownership verified, poll the inner
future; on `Ready`, release every requirement and wrap the value in `Ok`. -/
def PreemptibleFuture.poll {InnerS D Output : Type}
    (innerPoll : InnerS → D → InnerS × D × Poll Output)
    (fut : PreemptibleFuture InnerS) (reqs : List ReqState) (d : D) :
    PreemptibleFuture InnerS × List ReqState × D ×
      Poll (Except PreemptionError Output) :=
  if fut.first_run then
    pollVerified innerPoll { fut with first_run := false }
      (reqs.map (fun r => r.steal_ownership fut.info)) d
  else
    match checkRequirements fut.info reqs with
    | some err => (fut, reqs, d, Poll.ready (Except.error err))
    | none => pollVerified innerPoll fut reqs d

/-- A sequence of polls of the same task.  Between two polls other tasks
may steal or release requirements and change the shared data, so the
environment (requirement states and shared data) observed at each poll is
given as a list; the task's own state threads through. -/
def pollSeq {InnerS D Output : Type}
    (innerPoll : InnerS → D → InnerS × D × Poll Output) :
    PreemptibleFuture InnerS → List (List ReqState × D) →
      PreemptibleFuture InnerS × List (Poll (Except PreemptionError Output))
  | fut, [] => (fut, [])
  | fut, (reqs, d) :: rest =>
      let out := PreemptibleFuture.poll innerPoll fut reqs d
      let next := pollSeq innerPoll out.1 rest
      (next.1, out.2.2.2 :: next.2)

/-- A requirement fails arbitration for `self` when its recorded owner is
absent or is a different token by address: exactly the condition under
which the validation loop stops at it. -/
def ReqState.failsFor (r : ReqState) (self : ThiefRef) : Bool :=
  match r.owner with
  | none => true
  | some owner => owner.addr != self.addr

/-!
Embedding of `src/core/swiper_derive/src/lib.rs`: the `preemptible`
attribute macro's intermediate representation.  The syn token trees are
modelled by small inductives carrying exactly what the macro inspects and
produces: parameter patterns (an identifier or a destructuring pattern),
types, and the generated expressions.
-/

/-- A parameter pattern: a plain identifier, or any other (destructuring)
pattern, which the macro rejects. -/
inductive Pat where
  | ident (name : String)
  | destructured
deriving DecidableEq, Repr

/-- A Rust type as the macro manipulates it: an opaque base type, the
wrapped form `&swiper_stealing::RevocableCell<t>`, the unit type `()`
(used when the return type is defaulted), and
`core::result::Result<t, swiper_stealing::PreemptionError>`. -/
inductive Ty where
  | unit
  | named (s : String)
  | revocableCellRef (t : Ty)
  | result (t : Ty)
deriving DecidableEq, Repr

/-- A function argument (`syn::FnArg`): a typed pattern with its
attributes, or a receiver (`self`). -/
inductive FnArg where
  | typed (attrs : List String) (pat : Pat) (ty : Ty)
  | receiver
deriving DecidableEq, Repr

/-- The expressions the macro generates: a plain variable `#pat`, the
interior access `unsafe \x7b *#pat.data.get() \x7d`, a reference
`&#ident` for the requirements array, and `#recv.self_token` for
receivers. -/
inductive Expr where
  | var (name : String)
  | derefCellData (name : String)
  | ref (name : String)
  | selfToken
deriving DecidableEq, Repr

/-- `IntermediateRepr`: the four lists `single_fn_to_ir` builds. -/
structure IntermediateRepr where
  outer_params : List FnArg
  inner_params : List FnArg
  inner_args : List Expr
  requirements_arr : List Expr
deriving DecidableEq, Repr

/-- `single_fn_to_ir`: walk the input arguments in order.  A typed
identifier argument whose name is selected (`wrapped_names.is_empty() ||
wrapped_names.contains(..)`) gets its outer type wrapped in
`&RevocableCell<_>`, the interior-access inner argument, and a `&ident`
entry in the requirements array; an unselected one passes through
unchanged; a destructured pattern is rejected with a descriptive error;
a receiver passes through with `self_token` as the inner argument. -/
def single_fn_to_ir (inputs : List FnArg) (wrapped_names : List String) :
    Except String IntermediateRepr :=
  match inputs with
  | [] => Except.ok { outer_params := [], inner_params := [],
                      inner_args := [], requirements_arr := [] }
  | FnArg.typed attrs pat ty :: rest =>
    match pat with
    | Pat.ident nm =>
      match single_fn_to_ir rest wrapped_names with
      | Except.error e => Except.error e
      | Except.ok ir =>
        if wrapped_names.isEmpty || wrapped_names.contains nm then
          Except.ok
            { outer_params :=
                FnArg.typed attrs (Pat.ident nm) (Ty.revocableCellRef ty)
                  :: ir.outer_params,
              inner_params :=
                FnArg.typed [] (Pat.ident nm) ty :: ir.inner_params,
              inner_args := Expr.derefCellData nm :: ir.inner_args,
              requirements_arr := Expr.ref nm :: ir.requirements_arr }
        else
          Except.ok
            { outer_params :=
                FnArg.typed attrs (Pat.ident nm) ty :: ir.outer_params,
              inner_params :=
                FnArg.typed [] (Pat.ident nm) ty :: ir.inner_params,
              inner_args := Expr.var nm :: ir.inner_args,
              requirements_arr := ir.requirements_arr }
    | Pat.destructured =>
        Except.error
          "this macro does not yet support destructuring function arguments"
  | FnArg.receiver :: rest =>
    match single_fn_to_ir rest wrapped_names with
    | Except.error e => Except.error e
    | Except.ok ir =>
        Except.ok
          { outer_params := FnArg.receiver :: ir.outer_params,
            inner_params := FnArg.receiver :: ir.inner_params,
            inner_args := Expr.selfToken :: ir.inner_args,
            requirements_arr := ir.requirements_arr }

/-- A return type (`syn::ReturnType`): defaulted, or an explicit type. -/
inductive ReturnType where
  | default
  | explicit (t : Ty)
deriving DecidableEq, Repr

/-- The parts of a function signature the macro reads and rewrites. -/
structure Sig where
  ident : String
  inputs : List FnArg
  output : ReturnType
deriving DecidableEq, Repr

/-- The generated wrapper: the rewritten outer signature, the inner
signature (renamed `inner`, original types and output), the argument list
of the call `inner(..)`, and the requirements array passed to
`PreemptibleFuture::new`. -/
structure GeneratedFn where
  outer_sig : Sig
  inner_sig : Sig
  inner_call_args : List Expr
  requirements : List Expr
deriving DecidableEq, Repr

/-- `generate_wrapped_function`: outer inputs are replaced by
`ir.outer_params`; the outer output becomes
`core::result::Result<prev, PreemptionError>` where `prev` is the
original output type, or `()` when the output was defaulted; the inner
function keeps the original output and gets `ir.inner_params`; the body
calls `inner` on `ir.inner_args` with `ir.requirements_arr` as the
requirement array. -/
def generate_wrapped_function (input : Sig) (ir : IntermediateRepr) :
    GeneratedFn :=
  let prev_output : Ty :=
    match input.output with
    | ReturnType.default => Ty.unit
    | ReturnType.explicit out => out
  { outer_sig :=
      { ident := input.ident, inputs := ir.outer_params,
        output := ReturnType.explicit (Ty.result prev_output) },
    inner_sig :=
      { ident := "inner", inputs := ir.inner_params,
        output := input.output },
    inner_call_args := ir.inner_args,
    requirements := ir.requirements_arr }

/-- The inner future of the `future_mutexing` test with `incr = 5`
(`CountForever`): add 5 to the shared value and stay pending. -/
def plus5Poll : Unit → Int → Unit × Int × Poll Int :=
  fun _ d => ((), d + 5, Poll.pending)

/-- The inner future of the `future_mutexing` test with `incr = -1`
(`CountForever`): subtract 1 from the shared value and stay pending. -/
def minus1Poll : Unit → Int → Unit × Int × Poll Int :=
  fun _ d => ((), d - 1, Poll.pending)

/-- The token of the "+5" task: its name and the pinned address of its
`info` field (address 0, distinct from the other task's). -/
def plus5Thief : ThiefRef := { addr := 0, tinfo := { name := "plus_5" } }

/-- The token of the "−1" task (a different address). -/
def minus1Thief : ThiefRef := { addr := 1, tinfo := { name := "minus_1" } }

/-!
Theorems.  Each claim of the specification is settled by one theorem; the
helper lemmas before them are shared infrastructure.
-/

/-- Claim C5: on a `RevocableCell`, `steal_ownership t` always succeeds
and sets the recorded owner to exactly `t` (overwriting any previous
owner), `release_ownership` sets the recorded owner to none,
`current_owner` returns the recorded owner without modifying anything,
and none of the four operations reads or writes the protected value:
the data and name survive steal and release unchanged, and `info`
depends only on the name. -/
theorem revocable_cell_owner_only_ops {T : Type} (c : RevocableCell T)
    (t : ThiefRef) :
    (c.steal_ownership t).owner = some t ∧
    c.release_ownership.owner = none ∧
    c.current_owner = c.owner ∧
    (c.steal_ownership t).data = c.data ∧
    (c.steal_ownership t).name = c.name ∧
    c.release_ownership.data = c.data ∧
    c.release_ownership.name = c.name ∧
    c.info = { name := c.name } :=
  ⟨rfl, rfl, rfl, rfl, rfl, rfl, rfl, rfl⟩

/-- Claim C6: `PreemptionError` equality holds exactly when all three
fields agree, and the `Display` rendering distinguishes the two payload
cases: with `incoming = some i` it names the outgoing task, the incoming
task and the requirement; with `incoming = none` it names the outgoing
task, an unknown incoming task and the requirement. -/
theorem preemption_error_equality_and_rendering (e₁ e₂ : PreemptionError)
    (i o : ThiefInfo) (r : RequirementInfo) :
    (e₁ = e₂ ↔ e₁.incoming = e₂.incoming ∧ e₁.outgoing = e₂.outgoing ∧
      e₁.requirement = e₂.requirement) ∧
    PreemptionError.display
        { incoming := some i, outgoing := o, requirement := r } =
      "outgoing task " ++ o.display ++ " was preempted by incoming task "
        ++ i.display ++ " stealing its requirement " ++ r.display ∧
    PreemptionError.display
        { incoming := none, outgoing := o, requirement := r } =
      "outgoing task " ++ o.display ++
        " was preempted by an unknown incoming task stealing its requirement "
        ++ r.display := by
  refine ⟨⟨fun h => by cases h; exact ⟨rfl, rfl, rfl⟩, fun h => ?_⟩, rfl, rfl⟩
  obtain ⟨h1, h2, h3⟩ := h
  cases e₁
  cases e₂
  simp_all

/-- Claim C4 (Scenario A): two tasks share one integer cell starting
at 0, one adding 5 per step and one subtracting 1.  Polling the "+5"
task twice leaves 10; polling the "−1" task once steals and leaves 9;
the next poll of "+5" resolves to `Err` with outgoing "+5", incoming
"−1" and the shared requirement, leaving 9; polling "−1" again leaves 8. -/
theorem scenario_a_alternating_steps :
    PreemptibleFuture.poll plus5Poll
        { innerState := (), info := plus5Thief, first_run := true }
        [{ owner := none, name := "test" }] 0 =
      ({ innerState := (), info := plus5Thief, first_run := false },
        [{ owner := some plus5Thief, name := "test" }], 5, Poll.pending) ∧
    PreemptibleFuture.poll plus5Poll
        { innerState := (), info := plus5Thief, first_run := false }
        [{ owner := some plus5Thief, name := "test" }] 5 =
      ({ innerState := (), info := plus5Thief, first_run := false },
        [{ owner := some plus5Thief, name := "test" }], 10, Poll.pending) ∧
    PreemptibleFuture.poll minus1Poll
        { innerState := (), info := minus1Thief, first_run := true }
        [{ owner := some plus5Thief, name := "test" }] 10 =
      ({ innerState := (), info := minus1Thief, first_run := false },
        [{ owner := some minus1Thief, name := "test" }], 9, Poll.pending) ∧
    PreemptibleFuture.poll plus5Poll
        { innerState := (), info := plus5Thief, first_run := false }
        [{ owner := some minus1Thief, name := "test" }] 9 =
      ({ innerState := (), info := plus5Thief, first_run := false },
        [{ owner := some minus1Thief, name := "test" }], 9,
        Poll.ready (Except.error
          { incoming := some { name := "minus_1" },
            outgoing := { name := "plus_5" },
            requirement := { name := "test" } })) ∧
    PreemptibleFuture.poll minus1Poll
        { innerState := (), info := minus1Thief, first_run := false }
        [{ owner := some minus1Thief, name := "test" }] 9 =
      ({ innerState := (), info := minus1Thief, first_run := false },
        [{ owner := some minus1Thief, name := "test" }], 8, Poll.pending) := by
  refine ⟨?_, ?_, ?_, ?_, ?_⟩ <;> rfl

/-- After the ownership check, a poll either stays pending with the
requirements untouched, or resolves `Ok` with every requirement
released; it never produces an error. -/
lemma pollVerified_spec {InnerS D Output : Type}
    (innerPoll : InnerS → D → InnerS × D × Poll Output)
    (fut : PreemptibleFuture InnerS) (reqs : List ReqState) (d : D) :
    (∃ s d₂, pollVerified innerPoll fut reqs d =
        ({ fut with innerState := s }, reqs, d₂, Poll.pending)) ∨
    (∃ s d₂ v, pollVerified innerPoll fut reqs d =
        ({ fut with innerState := s }, reqs.map ReqState.release_ownership,
          d₂, Poll.ready (Except.ok v))) := by
  rcases h : innerPoll fut.innerState d with ⟨s, d₂, res⟩
  cases res with
  | pending => exact Or.inl ⟨s, d₂, by simp [pollVerified, h]⟩
  | ready v => exact Or.inr ⟨s, d₂, v, by simp [pollVerified, h]⟩

/-- On any poll past the first, requirement owners are either left alone
(pending or error path) or cleared (completion path); they are never set. -/
lemma poll_not_first_run_reqs {InnerS D Output : Type}
    (innerPoll : InnerS → D → InnerS × D × Poll Output)
    (fut : PreemptibleFuture InnerS) (reqs : List ReqState) (d : D)
    (h : fut.first_run = false) :
    (PreemptibleFuture.poll innerPoll fut reqs d).2.1 = reqs ∨
    (PreemptibleFuture.poll innerPoll fut reqs d).2.1 =
      reqs.map ReqState.release_ownership := by
  cases hc : checkRequirements fut.info reqs with
  | some err => exact Or.inl (by simp [PreemptibleFuture.poll, h, hc])
  | none =>
      have := pollVerified_spec innerPoll fut reqs d
      rcases this with ⟨s, d₂, heq⟩ | ⟨s, d₂, v, heq⟩
      · exact Or.inl (by simp [PreemptibleFuture.poll, h, hc, heq])
      · exact Or.inr (by simp [PreemptibleFuture.poll, h, hc, heq])

/-- Claim C2: on the first poll of a freshly constructed task, ownership
of every bound requirement is stolen with this task's own token,
unconditionally and regardless of any prior owner; the poll never
resolves to a `PreemptionError`; the `first_run` flag is cleared; and on
any poll with `first_run` already cleared no requirement owner is ever
set (only left alone or released), so stealing happens only on the first
poll. -/
theorem first_poll_steals_unconditionally_never_errs {InnerS D Output : Type}
    (innerPoll : InnerS → D → InnerS × D × Poll Output)
    (fut : PreemptibleFuture InnerS) (reqs : List ReqState) (d : D)
    (h : fut.first_run = true) :
    (∀ e, (PreemptibleFuture.poll innerPoll fut reqs d).2.2.2 ≠
        Poll.ready (Except.error e)) ∧
    ((PreemptibleFuture.poll innerPoll fut reqs d).2.1 =
        reqs.map (fun r => r.steal_ownership fut.info) ∨
      (PreemptibleFuture.poll innerPoll fut reqs d).2.1 =
        (reqs.map (fun r => r.steal_ownership fut.info)).map
          ReqState.release_ownership) ∧
    (PreemptibleFuture.poll innerPoll fut reqs d).1.first_run = false ∧
    (∀ (fut₂ : PreemptibleFuture InnerS) (reqs₂ : List ReqState) (d₂ : D),
      fut₂.first_run = false →
        (PreemptibleFuture.poll innerPoll fut₂ reqs₂ d₂).2.1 = reqs₂ ∨
        (PreemptibleFuture.poll innerPoll fut₂ reqs₂ d₂).2.1 =
          reqs₂.map ReqState.release_ownership) := by
  have hpoll : PreemptibleFuture.poll innerPoll fut reqs d =
      pollVerified innerPoll { fut with first_run := false }
        (reqs.map (fun r => r.steal_ownership fut.info)) d := by
    simp [PreemptibleFuture.poll, h]
  have hv := pollVerified_spec innerPoll { fut with first_run := false }
      (reqs.map (fun r => r.steal_ownership fut.info)) d
  refine ⟨?_, ?_, ?_, fun fut₂ reqs₂ d₂ h₂ =>
    poll_not_first_run_reqs innerPoll fut₂ reqs₂ d₂ h₂⟩
  · intro e hcontra
    rw [hpoll] at hcontra
    rcases hv with ⟨s, d₂, heq⟩ | ⟨s, d₂, v, heq⟩ <;>
      rw [heq] at hcontra <;> simp at hcontra
  · rw [hpoll]
    rcases hv with ⟨s, d₂, heq⟩ | ⟨s, d₂, v, heq⟩ <;> rw [heq]
    · exact Or.inl rfl
    · exact Or.inr rfl
  · rw [hpoll]
    rcases hv with ⟨s, d₂, heq⟩ | ⟨s, d₂, v, heq⟩ <;> rw [heq]

/-- Stealing then releasing a requirement is releasing it. -/
lemma steal_then_release (r : ReqState) (t : ThiefRef) :
    (r.steal_ownership t).release_ownership = r.release_ownership := rfl

/-- Claim C3: whenever the arbitration check passes (first poll, or every
bound requirement owned by this task's token), the poll propagates the
inner future's result: a pending inner future gives a pending poll with
no owner changed beyond the first-poll claiming, and an inner value `v`
gives `Ok v` with every bound requirement released. -/
theorem verified_poll_propagates_inner {InnerS D Output : Type}
    (innerPoll : InnerS → D → InnerS × D × Poll Output)
    (fut : PreemptibleFuture InnerS) (reqs : List ReqState) (d : D)
    (hpass : fut.first_run = true ∨
      (fut.first_run = false ∧ checkRequirements fut.info reqs = none)) :
    (∀ s₂ d₂, innerPoll fut.innerState d = (s₂, d₂, Poll.pending) →
      PreemptibleFuture.poll innerPoll fut reqs d =
        ({ fut with first_run := false, innerState := s₂ },
          if fut.first_run then
            reqs.map (fun r => r.steal_ownership fut.info)
          else reqs,
          d₂, Poll.pending)) ∧
    (∀ s₂ d₂ v, innerPoll fut.innerState d = (s₂, d₂, Poll.ready v) →
      PreemptibleFuture.poll innerPoll fut reqs d =
        ({ fut with first_run := false, innerState := s₂ },
          reqs.map ReqState.release_ownership, d₂,
          Poll.ready (Except.ok v))) := by
  obtain ⟨s0, tok, fr⟩ := fut
  cases fr with
  | true =>
      constructor
      · intro s₂ d₂ hinner
        simp [PreemptibleFuture.poll, pollVerified, hinner]
      · intro s₂ d₂ v hinner
        simp only [PreemptibleFuture.poll, pollVerified, hinner]
        simp [List.map_map, Function.comp_def, ReqState.steal_ownership,
          ReqState.release_ownership]
  | false =>
      rcases hpass with h | ⟨h, hchk⟩
      · exact absurd h (by simp)
      constructor
      · intro s₂ d₂ hinner
        simp [PreemptibleFuture.poll, pollVerified, hchk, hinner]
      · intro s₂ d₂ v hinner
        simp [PreemptibleFuture.poll, pollVerified, hchk, hinner]

/-- The validation loop stops at the first failing requirement and builds
its error from that requirement's recorded owner and name. -/
lemma checkRequirements_first_fail (self : ThiefRef) :
    ∀ (reqs : List ReqState) (i : Nat) (hi : i < reqs.length),
      (reqs.get ⟨i, hi⟩).failsFor self = true →
      (∀ j (hj : j < i), ∃ o, (reqs.get ⟨j, lt_trans hj hi⟩).owner = some o ∧
          o.addr = self.addr) →
      checkRequirements self reqs =
        some { incoming := (reqs.get ⟨i, hi⟩).owner.map ThiefRef.tinfo,
               outgoing := self.tinfo,
               requirement := { name := (reqs.get ⟨i, hi⟩).name } }
  | [], i, hi => by simp at hi
  | r :: rest, 0, hi => by
      intro hfail _
      cases howner : r.owner with
      | none => simp [checkRequirements, howner]
      | some o =>
          have : o.addr ≠ self.addr := by
            simp [ReqState.failsFor, howner] at hfail
            exact hfail
          simp [checkRequirements, howner, this]
  | r :: rest, j + 1, hi => by
      intro hfail hpass
      obtain ⟨o, howner, haddr⟩ := hpass 0 (Nat.succ_pos j)
      simp only [List.get] at howner ⊢
      have hrec := checkRequirements_first_fail self rest j
        (Nat.lt_of_succ_lt_succ hi) hfail
        (fun k hk => hpass (k + 1) (Nat.succ_lt_succ hk))
      simp [checkRequirements, howner, haddr, hrec]

/-- Claim C1: on a poll past the first, if some bound requirement's
recorded owner is not this task's own token by address while every
earlier one is, the poll immediately resolves to `Err` with
`outgoing` this task's token, `incoming` that requirement's recorded
owner (none when no owner is recorded) and `requirement` that
requirement's name; no state changes: requirements keep their owners
(no release), the shared data is untouched and the inner future is not
polled. -/
theorem later_poll_first_failing_requirement_errs {InnerS D Output : Type}
    (innerPoll : InnerS → D → InnerS × D × Poll Output)
    (fut : PreemptibleFuture InnerS) (reqs : List ReqState) (d : D)
    (hfr : fut.first_run = false)
    (i : Nat) (hi : i < reqs.length)
    (hfail : (reqs.get ⟨i, hi⟩).failsFor fut.info = true)
    (hpass : ∀ j (hj : j < i), ∃ o,
        (reqs.get ⟨j, lt_trans hj hi⟩).owner = some o ∧
        o.addr = fut.info.addr) :
    PreemptibleFuture.poll innerPoll fut reqs d =
      (fut, reqs, d, Poll.ready (Except.error
        { incoming := (reqs.get ⟨i, hi⟩).owner.map ThiefRef.tinfo,
          outgoing := fut.info.tinfo,
          requirement := { name := (reqs.get ⟨i, hi⟩).name } })) := by
  have hc := checkRequirements_first_fail fut.info reqs i hi hfail hpass
  simp [PreemptibleFuture.poll, hfr, hc]

/-- If some bound requirement fails arbitration, the validation loop
reports an error. -/
lemma checkRequirements_some_of_fail (self : ThiefRef) :
    ∀ (reqs : List ReqState),
      (∃ r ∈ reqs, r.failsFor self = true) →
      ∃ e, checkRequirements self reqs = some e
  | [], h => by simp at h
  | r :: rest, h => by
      cases howner : r.owner with
      | none =>
          exact ⟨{ incoming := none, outgoing := self.tinfo,
                   requirement := { name := r.name } },
            by simp [checkRequirements, howner]⟩
      | some o =>
          by_cases haddr : o.addr = self.addr
          · obtain ⟨r₂, hmem, hfail⟩ := h
            cases hmem with
            | head => simp [ReqState.failsFor, howner, haddr] at hfail
            | tail _ hmem =>
                obtain ⟨e, he⟩ := checkRequirements_some_of_fail self rest
                  ⟨r₂, hmem, hfail⟩
                exact ⟨e, by simp [checkRequirements, howner, haddr, he]⟩
          · exact ⟨{ incoming := some o.tinfo, outgoing := self.tinfo,
                     requirement := { name := r.name } },
              by simp [checkRequirements, howner, haddr]⟩

/-- A poll past the first in an environment with a failing requirement
resolves to an error and leaves the task and environment untouched. -/
lemma poll_errs_of_fail {InnerS D Output : Type}
    (innerPoll : InnerS → D → InnerS × D × Poll Output)
    (fut : PreemptibleFuture InnerS) (reqs : List ReqState) (d : D)
    (hfr : fut.first_run = false)
    (hex : ∃ r ∈ reqs, r.failsFor fut.info = true) :
    ∃ e, PreemptibleFuture.poll innerPoll fut reqs d =
      (fut, reqs, d, Poll.ready (Except.error e)) := by
  obtain ⟨e, he⟩ := checkRequirements_some_of_fail fut.info reqs hex
  exact ⟨e, by simp [PreemptibleFuture.poll, hfr, he]⟩

/-- Claim C9: once a task's poll has resolved to `Err` (so its
`first_run` flag is cleared and, with owners changed only through the
protocol's steals and releases, the failing requirement never again
records this task's token), every subsequent poll also resolves to
`Err` — never `Pending` and never `Ok` — and the task's own state,
including the inner future, is never touched again: over any sequence of
later polls whose environments each contain a requirement not owned by
this task, every result is an error and the task state is unchanged. -/
theorem after_error_every_later_poll_errs {InnerS D Output : Type}
    (innerPoll : InnerS → D → InnerS × D × Poll Output)
    (fut : PreemptibleFuture InnerS) (envs : List (List ReqState × D))
    (hfr : fut.first_run = false)
    (hfail : ∀ p ∈ envs, ∃ r ∈ p.1, r.failsFor fut.info = true) :
    (pollSeq innerPoll fut envs).1 = fut ∧
    ∀ res ∈ (pollSeq innerPoll fut envs).2,
      ∃ e, res = Poll.ready (Except.error e) := by
  induction envs with
  | nil => exact ⟨rfl, by simp [pollSeq]⟩
  | cons p rest ih =>
      obtain ⟨reqs, d⟩ := p
      obtain ⟨e, he⟩ := poll_errs_of_fail innerPoll fut reqs d hfr
        (hfail (reqs, d) (List.Mem.head _))
      have ihr := ih (fun q hq => hfail q (List.Mem.tail _ hq))
      constructor
      · simpa [pollSeq, he] using ihr.1
      · intro res hres
        simp only [pollSeq, he, List.mem_cons] at hres
        rcases hres with hres | hres
        · exact ⟨e, hres⟩
        · exact ihr.2 res hres


/-- `single_fn_to_ir` produces one outer parameter, one inner parameter
and one inner argument per input argument. -/
lemma single_fn_to_ir_lengths (wn : List String) :
    ∀ (inputs : List FnArg) (ir : IntermediateRepr),
      single_fn_to_ir inputs wn = Except.ok ir →
      ir.outer_params.length = inputs.length ∧
      ir.inner_params.length = inputs.length ∧
      ir.inner_args.length = inputs.length
  | [], ir, hok => by
      simp only [single_fn_to_ir] at hok
      injection hok with h
      subst h
      exact ⟨rfl, rfl, rfl⟩
  | FnArg.typed attrs (Pat.ident nm) ty :: rest, ir, hok => by
      simp only [single_fn_to_ir] at hok
      split at hok
      next e heq => exact Except.noConfusion hok
      next ir₀ heq =>
        have ih := single_fn_to_ir_lengths wn rest ir₀ heq
        split at hok <;> injection hok with h <;> subst h <;>
          simp [ih.1, ih.2.1, ih.2.2]
  | FnArg.typed attrs Pat.destructured ty :: rest, ir, hok => by
      simp only [single_fn_to_ir] at hok
      exact Except.noConfusion hok
  | FnArg.receiver :: rest, ir, hok => by
      simp only [single_fn_to_ir] at hok
      split at hok
      next e heq => exact Except.noConfusion hok
      next ir₀ heq =>
        have ih := single_fn_to_ir_lengths wn rest ir₀ heq
        injection hok with h
        subst h
        simp [ih.1, ih.2.1, ih.2.2]

/-- Every entry of the requirements array is a reference `&nm` to a
parameter name that was selected for wrapping. -/
lemma single_fn_to_ir_requirements_shape (wn : List String) :
    ∀ (inputs : List FnArg) (ir : IntermediateRepr),
      single_fn_to_ir inputs wn = Except.ok ir →
      ∀ e ∈ ir.requirements_arr, ∃ nm, e = Expr.ref nm ∧
        (wn.isEmpty || wn.contains nm) = true
  | [], ir, hok => by
      simp only [single_fn_to_ir] at hok
      injection hok with h
      subst h
      simp
  | FnArg.typed attrs (Pat.ident nm) ty :: rest, ir, hok => by
      simp only [single_fn_to_ir] at hok
      split at hok
      next e heq => exact Except.noConfusion hok
      next ir₀ heq =>
        split at hok
        next hc =>
          injection hok with h
          subst h
          intro e he
          simp only [List.mem_cons] at he
          rcases he with he | he
          · exact ⟨nm, he, hc⟩
          · exact single_fn_to_ir_requirements_shape wn rest ir₀ heq e he
        next hc =>
          injection hok with h
          subst h
          exact single_fn_to_ir_requirements_shape wn rest ir₀ heq
  | FnArg.typed attrs Pat.destructured ty :: rest, ir, hok => by
      simp only [single_fn_to_ir] at hok
      exact Except.noConfusion hok
  | FnArg.receiver :: rest, ir, hok => by
      simp only [single_fn_to_ir] at hok
      split at hok
      next e heq => exact Except.noConfusion hok
      next ir₀ heq =>
        injection hok with h
        subst h
        exact single_fn_to_ir_requirements_shape wn rest ir₀ heq

/-- Pointwise description of `single_fn_to_ir` on identifier parameters:
a selected parameter gets the wrapped outer type, the interior-access
inner argument and an entry in the requirements array; an unselected one
keeps its type and is passed through as a plain variable. -/
lemma single_fn_to_ir_pointwise (wn : List String) :
    ∀ (inputs : List FnArg) (ir : IntermediateRepr),
      single_fn_to_ir inputs wn = Except.ok ir →
      ∀ (i : Nat) (hi : i < inputs.length) (ho : i < ir.outer_params.length)
        (ha : i < ir.inner_args.length)
        (attrs : List String) (nm : String) (ty : Ty),
        inputs.get ⟨i, hi⟩ = FnArg.typed attrs (Pat.ident nm) ty →
        ((wn.isEmpty || wn.contains nm) = true →
          ir.outer_params.get ⟨i, ho⟩ =
            FnArg.typed attrs (Pat.ident nm) (Ty.revocableCellRef ty) ∧
          ir.inner_args.get ⟨i, ha⟩ = Expr.derefCellData nm ∧
          Expr.ref nm ∈ ir.requirements_arr) ∧
        ((wn.isEmpty || wn.contains nm) = false →
          ir.outer_params.get ⟨i, ho⟩ = FnArg.typed attrs (Pat.ident nm) ty ∧
          ir.inner_args.get ⟨i, ha⟩ = Expr.var nm)
  | [], ir, hok => by
      intro i hi
      simp at hi
  | FnArg.typed attrs₀ (Pat.ident nm₀) ty₀ :: rest, ir, hok => by
      simp only [single_fn_to_ir] at hok
      split at hok
      next e heq => exact Except.noConfusion hok
      next ir₀ heq =>
        have ih := single_fn_to_ir_pointwise wn rest ir₀ heq
        split at hok
        next hc =>
          injection hok with h
          subst h
          intro i hi ho ha attrs nm ty hget
          cases i with
          | zero =>
              simp only [List.get] at hget
              injection hget with h1 h2 h3
              injection h2 with h2
              subst h1; subst h2; subst h3
              refine ⟨fun _ => ⟨rfl, rfl, List.Mem.head _⟩, fun hfalse => ?_⟩
              rw [hc] at hfalse
              exact Bool.noConfusion hfalse
          | succ j =>
              simp only [List.get] at hget ⊢
              have hi₂ := Nat.lt_of_succ_lt_succ hi
              have ho₂ : j < ir₀.outer_params.length :=
                Nat.lt_of_succ_lt_succ (by simpa using ho)
              have ha₂ : j < ir₀.inner_args.length :=
                Nat.lt_of_succ_lt_succ (by simpa using ha)
              have hres := ih j hi₂ ho₂ ha₂ attrs nm ty hget
              refine ⟨fun hsel => ?_, fun hsel => hres.2 hsel⟩
              obtain ⟨e1, e2, e3⟩ := hres.1 hsel
              exact ⟨e1, e2, List.Mem.tail _ e3⟩
        next hc =>
          injection hok with h
          subst h
          intro i hi ho ha attrs nm ty hget
          cases i with
          | zero =>
              simp only [List.get] at hget
              injection hget with h1 h2 h3
              injection h2 with h2
              subst h1; subst h2; subst h3
              exact ⟨fun htrue => absurd htrue hc, fun _ => ⟨rfl, rfl⟩⟩
          | succ j =>
              simp only [List.get] at hget ⊢
              have hi₂ := Nat.lt_of_succ_lt_succ hi
              have ho₂ : j < ir₀.outer_params.length :=
                Nat.lt_of_succ_lt_succ (by simpa using ho)
              have ha₂ : j < ir₀.inner_args.length :=
                Nat.lt_of_succ_lt_succ (by simpa using ha)
              exact ih j hi₂ ho₂ ha₂ attrs nm ty hget
  | FnArg.typed attrs₀ Pat.destructured ty₀ :: rest, ir, hok => by
      simp only [single_fn_to_ir] at hok
      exact Except.noConfusion hok
  | FnArg.receiver :: rest, ir, hok => by
      simp only [single_fn_to_ir] at hok
      split at hok
      next e heq => exact Except.noConfusion hok
      next ir₀ heq =>
        injection hok with h
        subst h
        have ih := single_fn_to_ir_pointwise wn rest ir₀ heq
        intro i hi ho ha attrs nm ty hget
        cases i with
        | zero =>
            simp only [List.get] at hget
            exact FnArg.noConfusion hget
        | succ j =>
            simp only [List.get] at hget ⊢
            have hi₂ := Nat.lt_of_succ_lt_succ hi
            have ho₂ : j < ir₀.outer_params.length :=
              Nat.lt_of_succ_lt_succ (by simpa using ho)
            have ha₂ : j < ir₀.inner_args.length :=
              Nat.lt_of_succ_lt_succ (by simpa using ha)
            exact ih j hi₂ ho₂ ha₂ attrs nm ty hget

/-- Claim C7: with a non-empty selection of parameter names, each
selected parameter's type `T` is replaced by `&RevocableCell<T>` in the
outer signature and the parameter joins the requirement list; every
unselected parameter keeps its type, is passed to the inner function
unchanged as a plain variable, and never appears in the requirement
list; and the generated outer signature's result type is the original
result type (unit when defaulted) wrapped in
`Result<_, PreemptionError>`. -/
theorem preemptible_macro_wraps_selected_params
    (inputs : List FnArg) (wrapped_names : List String)
    (ir : IntermediateRepr) (input_sig : Sig)
    (hne : wrapped_names ≠ [])
    (hok : single_fn_to_ir inputs wrapped_names = Except.ok ir) :
    ir.outer_params.length = inputs.length ∧
    ir.inner_args.length = inputs.length ∧
    (∀ (i : Nat) (hi : i < inputs.length) (ho : i < ir.outer_params.length)
       (ha : i < ir.inner_args.length)
       (attrs : List String) (nm : String) (ty : Ty),
      inputs.get ⟨i, hi⟩ = FnArg.typed attrs (Pat.ident nm) ty →
        (nm ∈ wrapped_names →
          ir.outer_params.get ⟨i, ho⟩ =
            FnArg.typed attrs (Pat.ident nm) (Ty.revocableCellRef ty) ∧
          ir.inner_args.get ⟨i, ha⟩ = Expr.derefCellData nm ∧
          Expr.ref nm ∈ ir.requirements_arr) ∧
        (nm ∉ wrapped_names →
          ir.outer_params.get ⟨i, ho⟩ = FnArg.typed attrs (Pat.ident nm) ty ∧
          ir.inner_args.get ⟨i, ha⟩ = Expr.var nm ∧
          Expr.ref nm ∉ ir.requirements_arr)) ∧
    (generate_wrapped_function input_sig ir).outer_sig.output =
      ReturnType.explicit (Ty.result
        (match input_sig.output with
         | ReturnType.default => Ty.unit
         | ReturnType.explicit t => t)) := by
  have hlen := single_fn_to_ir_lengths wrapped_names inputs ir hok
  have hpt := single_fn_to_ir_pointwise wrapped_names inputs ir hok
  have hshape := single_fn_to_ir_requirements_shape wrapped_names inputs ir hok
  have hemp : wrapped_names.isEmpty = false := by simp [hne]
  refine ⟨hlen.1, hlen.2.2, ?_, ?_⟩
  · intro i hi ho ha attrs nm ty hget
    have hres := hpt i hi ho ha attrs nm ty hget
    constructor
    · intro hmem
      exact hres.1 (by simp [hmem])
    · intro hnmem
      obtain ⟨e1, e2⟩ := hres.2 (by simp [hemp, hnmem])
      refine ⟨e1, e2, fun hcontra => ?_⟩
      obtain ⟨nm₂, hnm₂, hsel₂⟩ := hshape (Expr.ref nm) hcontra
      injection hnm₂ with hnm₂
      subst hnm₂
      rw [hemp] at hsel₂
      simp at hsel₂
      exact hnmem hsel₂
  · obtain ⟨idt, ins, out⟩ := input_sig
    cases out <;> rfl

/-- Claim C8: any parameter list containing a destructured
(non-identifier) parameter pattern is rejected by the macro's IR
construction with the descriptive error, for every selection of wrapped
names, instead of producing a wrapped function. -/
theorem destructured_param_rejected :
    ∀ (inputs : List FnArg) (wrapped_names : List String),
      (∃ attrs ty, FnArg.typed attrs Pat.destructured ty ∈ inputs) →
      single_fn_to_ir inputs wrapped_names =
        Except.error
          "this macro does not yet support destructuring function arguments"
  | [], wn, h => by
      obtain ⟨attrs, ty, hmem⟩ := h
      exact absurd hmem (List.not_mem_nil _)
  | FnArg.typed attrs₀ (Pat.ident nm₀) ty₀ :: rest, wn, h => by
      obtain ⟨attrs, ty, hmem⟩ := h
      rcases List.mem_cons.mp hmem with heq | hmem
      · injection heq with h1 h2 h3
        exact Pat.noConfusion h2
      · have ih := destructured_param_rejected rest wn ⟨attrs, ty, hmem⟩
        simp [single_fn_to_ir, ih]
  | FnArg.typed attrs₀ Pat.destructured ty₀ :: rest, wn, h => by
      simp [single_fn_to_ir]
  | FnArg.receiver :: rest, wn, h => by
      obtain ⟨attrs, ty, hmem⟩ := h
      rcases List.mem_cons.mp hmem with heq | hmem
      · exact FnArg.noConfusion heq
      · have ih := destructured_param_rejected rest wn ⟨attrs, ty, hmem⟩
        simp [single_fn_to_ir, ih]

/-- Claim C10: with an empty selection of parameter names, the macro
wraps every named (non-receiver) parameter as a `RevocableCell`
requirement — each one's outer type is wrapped and each one appears in
the requirement list — rather than wrapping none of them. -/
theorem empty_attr_wraps_all_named_params
    (inputs : List FnArg) (ir : IntermediateRepr)
    (hok : single_fn_to_ir inputs [] = Except.ok ir) :
    ir.outer_params.length = inputs.length ∧
    ∀ (i : Nat) (hi : i < inputs.length) (ho : i < ir.outer_params.length)
      (ha : i < ir.inner_args.length)
      (attrs : List String) (nm : String) (ty : Ty),
      inputs.get ⟨i, hi⟩ = FnArg.typed attrs (Pat.ident nm) ty →
      ir.outer_params.get ⟨i, ho⟩ =
        FnArg.typed attrs (Pat.ident nm) (Ty.revocableCellRef ty) ∧
      ir.inner_args.get ⟨i, ha⟩ = Expr.derefCellData nm ∧
      Expr.ref nm ∈ ir.requirements_arr := by
  have hlen := single_fn_to_ir_lengths [] inputs ir hok
  have hpt := single_fn_to_ir_pointwise [] inputs ir hok
  refine ⟨hlen.1, ?_⟩
  intro i hi ho ha attrs nm ty hget
  exact (hpt i hi ho ha attrs nm ty hget).1 (by simp)

/-- Witness for C1 at the Scenario A theft step. -/
theorem later_poll_first_failing_requirement_errs_witness :
    PreemptibleFuture.poll plus5Poll
        { innerState := (), info := plus5Thief, first_run := false }
        [{ owner := some minus1Thief, name := "test" }] (9 : Int) =
      ({ innerState := (), info := plus5Thief, first_run := false },
        [{ owner := some minus1Thief, name := "test" }], 9,
        Poll.ready (Except.error
          { incoming := some { name := "minus_1" },
            outgoing := { name := "plus_5" },
            requirement := { name := "test" } })) :=
  later_poll_first_failing_requirement_errs plus5Poll
    { innerState := (), info := plus5Thief, first_run := false }
    [{ owner := some minus1Thief, name := "test" }] (9 : Int)
    rfl 0 (by decide) (by decide)
    (fun j hj => absurd hj (Nat.not_lt_zero j))

/-- Witness for C2: a first poll over an already-owned requirement. -/
theorem first_poll_steals_unconditionally_never_errs_witness :
    (PreemptibleFuture.poll plus5Poll
        { innerState := (), info := plus5Thief, first_run := true }
        [{ owner := some minus1Thief, name := "test" }] (0 : Int)).2.1 =
      [({ owner := some minus1Thief, name := "test" } : ReqState)].map
        (fun r => r.steal_ownership plus5Thief) ∨
    (PreemptibleFuture.poll plus5Poll
        { innerState := (), info := plus5Thief, first_run := true }
        [{ owner := some minus1Thief, name := "test" }] (0 : Int)).2.1 =
      ([({ owner := some minus1Thief, name := "test" } : ReqState)].map
        (fun r => r.steal_ownership plus5Thief)).map
        ReqState.release_ownership :=
  (first_poll_steals_unconditionally_never_errs plus5Poll
    { innerState := (), info := plus5Thief, first_run := true }
    [{ owner := some minus1Thief, name := "test" }] (0 : Int) rfl).2.1

/-- Witness for C3: a passing first poll whose inner future is pending. -/
theorem verified_poll_propagates_inner_witness :
    PreemptibleFuture.poll plus5Poll
        { innerState := (), info := plus5Thief, first_run := true }
        [{ owner := none, name := "test" }] (0 : Int) =
      ({ innerState := (), info := plus5Thief, first_run := false },
        [{ owner := some plus5Thief, name := "test" }], 5, Poll.pending) :=
  (verified_poll_propagates_inner plus5Poll
      { innerState := (), info := plus5Thief, first_run := true }
      [{ owner := none, name := "test" }] (0 : Int) (Or.inl rfl)).1 () 5 rfl

/-- Witness for C7 at the macro's own `fn_to_ir` test input. -/
theorem preemptible_macro_wraps_selected_params_witness :
    FnArg.typed [] (Pat.ident "a") (Ty.revocableCellRef (Ty.named "i32")) =
      FnArg.typed [] (Pat.ident "a") (Ty.revocableCellRef (Ty.named "i32")) ∧
    Expr.derefCellData "a" = Expr.derefCellData "a" ∧
    Expr.ref "a" ∈ [Expr.ref "a"] :=
  ((preemptible_macro_wraps_selected_params
      [FnArg.typed [] (Pat.ident "a") (Ty.named "i32"),
       FnArg.typed [] (Pat.ident "b") (Ty.named "i32")]
      ["a"]
      { outer_params :=
          [FnArg.typed [] (Pat.ident "a")
            (Ty.revocableCellRef (Ty.named "i32")),
           FnArg.typed [] (Pat.ident "b") (Ty.named "i32")],
        inner_params :=
          [FnArg.typed [] (Pat.ident "a") (Ty.named "i32"),
           FnArg.typed [] (Pat.ident "b") (Ty.named "i32")],
        inner_args := [Expr.derefCellData "a", Expr.var "b"],
        requirements_arr := [Expr.ref "a"] }
      { ident := "eg",
        inputs :=
          [FnArg.typed [] (Pat.ident "a") (Ty.named "i32"),
           FnArg.typed [] (Pat.ident "b") (Ty.named "i32")],
        output := ReturnType.explicit (Ty.named "i32") }
      (by decide) rfl).2.2.1 0 (by decide) (by decide) (by decide)
      [] "a" (Ty.named "i32") rfl).1 (by decide)

/-- Witness for C8 on a single destructured parameter. -/
theorem destructured_param_rejected_witness :
    single_fn_to_ir [FnArg.typed [] Pat.destructured (Ty.named "i32")] [] =
      Except.error
        "this macro does not yet support destructuring function arguments" :=
  destructured_param_rejected
    [FnArg.typed [] Pat.destructured (Ty.named "i32")] []
    ⟨[], Ty.named "i32", List.Mem.head _⟩

/-- Witness for C9: after losing its requirement, a later poll leaves
the task state untouched. -/
theorem after_error_every_later_poll_errs_witness :
    (pollSeq plus5Poll
        { innerState := (), info := plus5Thief, first_run := false }
        [([{ owner := some minus1Thief, name := "test" }], (9 : Int))]).1 =
      { innerState := (), info := plus5Thief, first_run := false } :=
  (after_error_every_later_poll_errs plus5Poll
      { innerState := (), info := plus5Thief, first_run := false }
      [([{ owner := some minus1Thief, name := "test" }], (9 : Int))]
      rfl (by decide)).1

/-- Witness for C10 on a single named parameter with no selection. -/
theorem empty_attr_wraps_all_named_params_witness :
    FnArg.typed [] (Pat.ident "x") (Ty.revocableCellRef (Ty.named "i32")) =
      FnArg.typed [] (Pat.ident "x") (Ty.revocableCellRef (Ty.named "i32")) ∧
    Expr.derefCellData "x" = Expr.derefCellData "x" ∧
    Expr.ref "x" ∈ [Expr.ref "x"] :=
  (empty_attr_wraps_all_named_params
      [FnArg.typed [] (Pat.ident "x") (Ty.named "i32")]
      { outer_params :=
          [FnArg.typed [] (Pat.ident "x")
            (Ty.revocableCellRef (Ty.named "i32"))],
        inner_params := [FnArg.typed [] (Pat.ident "x") (Ty.named "i32")],
        inner_args := [Expr.derefCellData "x"],
        requirements_arr := [Expr.ref "x"] }
      rfl).2 0 (by decide) (by decide) (by decide) [] "x" (Ty.named "i32") rfl

end Swiper
